import Mathlib

/-!
Verification development for the sakura-chat repository.

This file gives a shallow embedding of the repository's code and settles the
frozen claims about it.  The embedded functions are translated from the
source files:

* `src/api/chat.js` — the canonical request handler (`handlerMain` below),
  its query parser (`parseStationGenre`), the candidate selection block
  (`selectChosen` and its pieces), the walk-time estimate
  (`estimateWalkMinutes`, `haversineMeters`), the Fisher–Yates shuffle
  (`shuffleInPlace`), the map-link builder (`makePlacePageUrl`) and the
  review-summary fallback logic.
* `src/unnamed/part_003` — an earlier variant of the handler (`handlerV3`),
  embedded for the claims whose sources cite it.
* `src/components/linkifyText.tsx` — the URL linkifier (`linkifyText`).

External collaborator calls (geocoding, places search, place details, text
generation) are modelled by explicit outcome values: a call either threw
(fetch rejection / JSON-parse exception), returned a non-success HTTP
status, or returned a payload.  Request payloads sent TO collaborators
(prompt strings and URL query strings of outgoing requests) do not influence
the handler's response value and are not modelled.  `Math.random` is
modelled by an injected index source `rand : Nat → Nat`; JavaScript numbers
are modelled by `ℚ` where the code only does comparisons, and by `ℝ` in the
trigonometric walk-time path.
-/

/-! ## JavaScript string helpers

`jsWs` models the JavaScript regular-expression class `\s`; `jsTrim` models
`String.prototype.trim`, and `collapseWs` models `replace(/\s+/g, " ")`. -/

/-- Characters matched by the JavaScript whitespace class. -/
def jsWs (c : Char) : Bool :=
  c = ' ' || c = '\t' || c = '\n' || c = '\r' || c.val = 11 || c.val = 12 ||
  c.val = 0xA0 || c.val = 0x1680 || (0x2000 ≤ c.val && c.val ≤ 0x200A) ||
  c.val = 0x2028 || c.val = 0x2029 || c.val = 0x202F || c.val = 0x205F ||
  c.val = 0x3000 || c.val = 0xFEFF

/-- Trim on character lists: drop JS whitespace from both ends. -/
def jsTrimList (cs : List Char) : List Char :=
  ((cs.dropWhile jsWs).reverse.dropWhile jsWs).reverse

/-- Model of `String.prototype.trim`. -/
def jsTrim (s : String) : String :=
  ⟨jsTrimList s.data⟩

/-- Replace every maximal run of JS whitespace by one space; `inRun` records
whether the previous character was part of a whitespace run (structural
recursion so that concrete runs evaluate). -/
def collapseGo (inRun : Bool) : List Char → List Char
  | [] => []
  | c :: r =>
    if jsWs c then
      if inRun then collapseGo true r else ' ' :: collapseGo true r
    else c :: collapseGo false r

/-- Replace every maximal run of JS whitespace by one space. -/
def collapseWsAux (cs : List Char) : List Char :=
  collapseGo false cs

/-- Model of `text.replace(/\s+/g, " ")`. -/
def collapseWs (s : String) : String :=
  ⟨collapseWsAux s.data⟩

/-! ## Data model

`Candidate` is one mapped result of the nearby-search call in
`src/api/chat.js` (`name`, `place_id`, `rating`, `user_ratings_total`,
`vicinity`, `geometry`); the `geometry` field stands for the
`geometry?.location` coordinate when present.  Absent or non-number JSON
fields are `none`. -/

/-- A latitude/longitude pair (`{ lat, lng }`). -/
structure Coordinate where
  lat : ℚ
  lng : ℚ
deriving DecidableEq, Repr

/-- One mapped nearby-search result from `src/api/chat.js`. -/
structure Candidate where
  name : Option String
  place_id : Option String
  rating : Option ℚ
  user_ratings_total : Option ℚ
  vicinity : Option String
  geometry : Option Coordinate
deriving DecidableEq, Repr

/-- The value of `p.rating ?? 0` used by the sort comparator. -/
def ratingD (p : Candidate) : ℚ :=
  p.rating.getD 0

/-- The value of `p.user_ratings_total ?? 0` used by the sort comparator. -/
def countD (p : Candidate) : ℚ :=
  p.user_ratings_total.getD 0

/-! ## Fisher–Yates shuffle (`shuffleInPlace` in `src/api/chat.js`)

The in-place swap `[arr[i], arr[j]] = [arr[j], arr[i]]` becomes `swapIdx`;
`Math.floor(Math.random() * (i + 1))` becomes `rand i` for an injected
index source (the real source always satisfies `rand i ≤ i`). -/

/-- Swap the elements at positions `i` and `j` (identity when out of range,
which never happens for indices produced by the loop). -/
def swapIdx (l : List α) (i j : ℕ) : List α :=
  match l[i]?, l[j]? with
  | some a, some b => (l.set i b).set j a
  | _, _ => l

/-- The descending loop of `shuffleInPlace`: handles indices `i, i-1, …, 1`. -/
def shuffleAux (rand : ℕ → ℕ) : ℕ → List α → List α
  | 0, l => l
  | i + 1, l => shuffleAux rand i (swapIdx l (i + 1) (rand (i + 1)))

/-- Model of `shuffleInPlace (arr)` with injected randomness. -/
def shuffleInPlace (rand : ℕ → ℕ) (l : List α) : List α :=
  shuffleAux rand (l.length - 1) l

/-! ## The candidate selection block (`src/api/chat.js` lines 63–77) -/

/-- Ordering used by the sort comparator: descending rating, ties broken by
descending rating count. -/
def candBefore (a b : Candidate) : Prop :=
  ratingD b < ratingD a ∨ (ratingD b = ratingD a ∧ countD b ≤ countD a)

instance : DecidableRel candBefore := by
  unfold candBefore
  exact fun a b => inferInstance

instance : IsTotal Candidate candBefore where
  total a b := by
    unfold candBefore
    rcases lt_trichotomy (ratingD a) (ratingD b) with h | h | h
    · exact Or.inr (Or.inl h)
    · rcases le_total (countD b) (countD a) with hc | hc
      · exact Or.inl (Or.inr ⟨h.symm, hc⟩)
      · exact Or.inr (Or.inr ⟨h, hc⟩)
    · exact Or.inl (Or.inl h)

instance : IsTrans Candidate candBefore where
  trans a b c hab hbc := by
    unfold candBefore at *
    rcases hab with h1 | ⟨h1, h1c⟩ <;> rcases hbc with h2 | ⟨h2, h2c⟩
    · exact Or.inl (h2.trans h1)
    · exact Or.inl (h2 ▸ h1)
    · exact Or.inl (h1 ▸ h2)
    · exact Or.inr ⟨h2.trans h1, h2c.trans h1c⟩

/-- Model of `places.filter(p => typeof p.rating === "number").sort(cmp)`. -/
def ratedSortedOf (places : List Candidate) : List Candidate :=
  List.insertionSort candBefore (places.filter (fun p => p.rating.isSome))

/-- Model of `rated.filter(p => (p.rating ?? 0) >= 4.0)`. -/
def fourPlusOf (places : List Candidate) : List Candidate :=
  (ratedSortedOf places).filter (fun p => decide (4 ≤ ratingD p))

/-- Model of `fourPlus.length > 0 ? fourPlus : rated`. -/
def chosenBaseOf (places : List Candidate) : List Candidate :=
  if 0 < (fourPlusOf places).length then fourPlusOf places else ratedSortedOf places

/-- Model of `chosenBase.slice(0, Math.min(12, chosenBase.length))`. -/
def poolOf (places : List Candidate) : List Candidate :=
  (chosenBaseOf places).take (min 12 (chosenBaseOf places).length)

/-- The whole selection block: filter, sort, partition, slice, shuffle,
final `slice(0, Math.min(5, pool.length))`. -/
def selectChosen (rand : ℕ → ℕ) (places : List Candidate) : List Candidate :=
  let shuffled := shuffleInPlace rand (poolOf places)
  shuffled.take (min 5 shuffled.length)

/-! ## Permutation facts about the shuffle -/

theorem cons_set_perm {α : Type u} :
    ∀ (t : List α) (m : ℕ) (a b : α), t[m]? = some b →
      List.Perm (b :: t.set m a) (a :: t) := by
  intro t
  induction t with
  | nil => intro m a b h; simp at h
  | cons y s ih =>
    intro m a b h
    cases m with
    | zero =>
      simp only [List.getElem?_cons_zero, Option.some.injEq] at h
      subst h
      simpa using List.Perm.swap a y s
    | succ k =>
      simp only [List.getElem?_cons_succ] at h
      have hk := ih k a b h
      have h2 : List.Perm (b :: y :: s.set k a) (a :: y :: s) :=
        ((List.Perm.swap y b _).trans (List.Perm.cons y hk)).trans
          (List.Perm.swap a y s)
      simpa using h2

theorem set_set_perm {α : Type u} :
    ∀ (l : List α) (i j : ℕ) (a b : α), l[i]? = some a → l[j]? = some b →
      List.Perm ((l.set i b).set j a) l := by
  intro l
  induction l with
  | nil => intro i j a b hi hj; simp at hi
  | cons x t ih =>
    intro i j a b hi hj
    cases i with
    | zero =>
      simp only [List.getElem?_cons_zero, Option.some.injEq] at hi
      subst hi
      cases j with
      | zero => simp
      | succ m =>
        simp only [List.getElem?_cons_succ] at hj
        simpa using cons_set_perm t m x b hj
    | succ n =>
      simp only [List.getElem?_cons_succ] at hi
      cases j with
      | zero =>
        simp only [List.getElem?_cons_zero, Option.some.injEq] at hj
        subst hj
        simpa using cons_set_perm t n x a hi
      | succ m =>
        simp only [List.getElem?_cons_succ] at hj
        simpa using List.Perm.cons x (ih n m a b hi hj)

theorem swapIdx_perm {α : Type u} (l : List α) (i j : ℕ) :
    List.Perm (swapIdx l i j) l := by
  unfold swapIdx
  cases hi : l[i]? with
  | none => exact List.Perm.refl l
  | some a =>
    cases hj : l[j]? with
    | none => exact List.Perm.refl l
    | some b => exact set_set_perm l i j a b hi hj

theorem shuffleAux_perm {α : Type u} (rand : ℕ → ℕ) :
    ∀ (k : ℕ) (l : List α), List.Perm (shuffleAux rand k l) l := by
  intro k
  induction k with
  | zero => intro l; exact List.Perm.refl l
  | succ i ih =>
    intro l
    exact (ih _).trans (swapIdx_perm l (i + 1) (rand (i + 1)))

theorem shuffleInPlace_perm {α : Type u} (rand : ℕ → ℕ) (l : List α) :
    List.Perm (shuffleInPlace rand l) l :=
  shuffleAux_perm rand (l.length - 1) l

/-! ## Sortedness facts about the selection block -/

theorem candBefore_rating_le {x y : Candidate} (h : candBefore x y) :
    ratingD y ≤ ratingD x := by
  rcases h with h | ⟨h, -⟩
  · exact h.le
  · exact h.le

theorem ratedSorted_pairwise (places : List Candidate) :
    List.Pairwise candBefore (ratedSortedOf places) :=
  List.sorted_insertionSort candBefore _

theorem filter_eq_takeWhile_sorted :
    ∀ l : List Candidate, List.Pairwise candBefore l →
      l.filter (fun p => decide (4 ≤ ratingD p)) =
        l.takeWhile (fun p => decide (4 ≤ ratingD p)) := by
  intro l
  induction l with
  | nil => intro _; rfl
  | cons a t ih =>
    intro hp
    rcases List.pairwise_cons.mp hp with ⟨ha, ht⟩
    by_cases h4 : 4 ≤ ratingD a
    · rw [List.filter_cons_of_pos (by simpa using h4),
        List.takeWhile_cons_of_pos (by simpa using h4), ih ht]
    · have hnil : t.filter (fun p => decide (4 ≤ ratingD p)) = [] :=
        List.filter_eq_nil_iff.mpr (fun b hb => by
          simp only [decide_eq_true_eq]
          intro hle
          exact h4 (hle.trans (candBefore_rating_le (ha b hb))))
      rw [List.filter_cons_of_neg (by simpa using h4),
        List.takeWhile_cons_of_neg (by simpa using h4), hnil]

theorem takeWhile_eq_take_len {α : Type u} (p : α → Bool) :
    ∀ l : List α, l.takeWhile p = l.take (l.takeWhile p).length := by
  intro l
  induction l with
  | nil => rfl
  | cons a t ih =>
    by_cases h : p a
    · rw [List.takeWhile_cons_of_pos h]
      simp only [List.length_cons, List.take_succ_cons]
      exact congrArg (a :: ·) ih
    · rw [List.takeWhile_cons_of_neg h]
      simp

theorem fourPlus_eq_take (places : List Candidate) :
    fourPlusOf places = (ratedSortedOf places).take (fourPlusOf places).length := by
  have h1 : fourPlusOf places =
      (ratedSortedOf places).takeWhile (fun p => decide (4 ≤ ratingD p)) :=
    filter_eq_takeWhile_sorted _ (ratedSorted_pairwise places)
  rw [h1]
  exact takeWhile_eq_take_len _ _

theorem prefix_take_spec {α : Type u} (s f : List α) (hf : f = s.take f.length)
    (k : ℕ) : f.take k = s.take ((f.take k).length) := by
  conv_lhs => rw [hf]
  rw [List.take_take, List.length_take]

theorem pool_spec (places : List Candidate) :
    poolOf places = (ratedSortedOf places).take (poolOf places).length := by
  unfold poolOf chosenBaseOf
  by_cases h : 0 < (fourPlusOf places).length
  · simp only [h, if_true]
    exact prefix_take_spec _ _ (fourPlus_eq_take places) _
  · simp only [h, if_false]
    exact prefix_take_spec _ _ (List.take_length _).symm _

/-! ## Length of the shortlist -/

theorem selectChosen_length (rand : ℕ → ℕ) (places : List Candidate) :
    (selectChosen rand places).length = min 5 (chosenBaseOf places).length := by
  unfold selectChosen
  have hsh : (shuffleInPlace rand (poolOf places)).length = (poolOf places).length :=
    (shuffleInPlace_perm rand _).length_eq
  have hpool : (poolOf places).length = min 12 (chosenBaseOf places).length := by
    unfold poolOf
    rw [List.length_take, min_assoc, min_self]
  simp only [List.length_take, hsh, hpool]
  omega

theorem chosenBase_ne_nil (places : List Candidate)
    (h : ratedSortedOf places ≠ []) : chosenBaseOf places ≠ [] := by
  unfold chosenBaseOf
  by_cases h4 : 0 < (fourPlusOf places).length
  · simp only [h4, if_true]
    intro hnil
    rw [hnil] at h4
    simp at h4
  · simp only [h4, if_false]
    exact h

/-- Claim C1 is false on the code: a nonempty candidate list whose only
member lacks a numeric rating yields an EMPTY shortlist (the selection base
falls back to the rated set, never to the unfiltered input), so the length
is not `min 5 candidateCount`. -/
def candUnrated : Candidate :=
  ⟨some "A", some "id1", none, none, none, none⟩

/-- Deterministic index source used by the concrete runs. -/
def rand0 : ℕ → ℕ := fun _ => 0

/-- C1 counterexample: for the one-element unrated input, the shortlist is
empty, while the claim demands length `min 5 1 = 1`; so no fallback to the
complete unfiltered candidate set happens. -/
theorem c1_shortlist_length_counterexample :
    selectChosen rand0 [candUnrated] = [] ∧
      (selectChosen rand0 [candUnrated]).length ≠ min 5 [candUnrated].length := by
  constructor
  · decide
  · decide

/-- C1 amended: the shortlist length is `min 5 (chosenBase length)`, where
`chosenBase` is the four-plus subset when that is nonempty and the rated
subset otherwise; the shortlist is empty exactly when no candidate carries a
numeric rating (there is no fallback to the unfiltered input), and an empty
input still yields an empty shortlist. -/
theorem c1_shortlist_length_amended (rand : ℕ → ℕ) (places : List Candidate) :
    (places = [] → selectChosen rand places = []) ∧
    (ratedSortedOf places = [] → selectChosen rand places = []) ∧
    (ratedSortedOf places ≠ [] →
      (selectChosen rand places).length = min 5 (chosenBaseOf places).length ∧
        selectChosen rand places ≠ []) := by
  refine ⟨?_, ?_, ?_⟩
  · intro h
    subst h
    rfl
  · intro h
    have hcb : chosenBaseOf places = [] := by
      unfold chosenBaseOf fourPlusOf
      rw [h]
      simp
    have := selectChosen_length rand places
    rw [hcb] at this
    simp only [List.length_nil, Nat.min_zero] at this
    exact List.eq_nil_of_length_eq_zero this
  · intro h
    refine ⟨selectChosen_length rand places, ?_⟩
    have hcb := chosenBase_ne_nil places h
    have hlen := selectChosen_length rand places
    intro hnil
    rw [hnil] at hlen
    simp only [List.length_nil] at hlen
    have : 0 < (chosenBaseOf places).length := List.length_pos.mpr hcb
    omega

/-- A rated candidate with rating 4 (in the four-plus subset). -/
def candA : Candidate :=
  ⟨some "A", some "idA", some 4, some 10, none, none⟩

/-- A rated candidate with rating 3 (below the quality threshold). -/
def candB : Candidate :=
  ⟨some "B", some "idB", some 3, none, none, none⟩

/-- Witness for the amended C1 theorem at concrete inputs. -/
theorem c1_shortlist_length_amended_witness :
    selectChosen rand0 [] = [] ∧
    selectChosen rand0 [candUnrated] = [] ∧
    (selectChosen rand0 [candB]).length = min 5 (chosenBaseOf [candB]).length := by
  refine ⟨(c1_shortlist_length_amended rand0 []).1 rfl,
    (c1_shortlist_length_amended rand0 [candUnrated]).2.1 (by decide),
    ((c1_shortlist_length_amended rand0 [candB]).2.2 (by decide)).1⟩

/-- Claim C2: every member of the final shortlist has a rating at least the
rating of every rated candidate excluded from the top-N selection pool —
the pool is a prefix of the rating-descending sorted rated list, the
shuffle permutes it, and the shortlist is a prefix of the shuffled pool,
so min(rating over the shortlist) ≥ max(rating over the candidates beyond
the pool), for every outcome of the shuffle. -/
theorem c2_quality_floor (rand : ℕ → ℕ) (places : List Candidate)
    (x y : Candidate) (hx : x ∈ selectChosen rand places)
    (hy : y ∈ (ratedSortedOf places).drop (poolOf places).length) :
    ratingD y ≤ ratingD x := by
  have hx1 : x ∈ shuffleInPlace rand (poolOf places) :=
    List.mem_of_mem_take hx
  have hx2 : x ∈ poolOf places := (shuffleInPlace_perm rand _).mem_iff.mp hx1
  rw [pool_spec places] at hx2
  have hsorted : List.Pairwise candBefore (ratedSortedOf places) :=
    ratedSorted_pairwise places
  rw [← List.take_append_drop (poolOf places).length (ratedSortedOf places)]
    at hsorted
  obtain ⟨-, -, hrel⟩ := List.pairwise_append.mp hsorted
  exact candBefore_rating_le (hrel x hx2 y hy)

/-- Witness for C2 at a concrete input: with candidates rated 4 and 3, the
shortlist is `[candA]`, the sorted rated list beyond the pool is `[candB]`,
and 3 ≤ 4. -/
theorem c2_quality_floor_witness :
    candA ∈ selectChosen rand0 [candA, candB] ∧
    candB ∈ (ratedSortedOf [candA, candB]).drop (poolOf [candA, candB]).length ∧
    ratingD candB ≤ ratingD candA :=
  ⟨by decide, by decide,
    c2_quality_floor rand0 [candA, candB] candA candB (by decide) (by decide)⟩

/-- Claim C9: the selection block picks a sub-multiset of its input (so
membership and multiplicities are preserved), and the Fisher–Yates shuffle
is a permutation of its array, for every outcome of the random source. -/
theorem c9_selection_membership (rand : ℕ → ℕ) (places : List Candidate)
    (l : List Candidate) :
    (selectChosen rand places : Multiset Candidate) ≤ (places : Multiset Candidate) ∧
      List.Perm (shuffleInPlace rand l) l := by
  constructor
  · rw [Multiset.coe_le]
    have h1 : List.Subperm (selectChosen rand places)
        (shuffleInPlace rand (poolOf places)) :=
      (List.take_sublist _ _).subperm
    have h2 : List.Subperm (selectChosen rand places) (poolOf places) :=
      h1.trans (shuffleInPlace_perm rand _).subperm
    have h3 : List.Subperm (poolOf places) (chosenBaseOf places) :=
      (List.take_sublist _ _).subperm
    have h4 : List.Subperm (chosenBaseOf places) (ratedSortedOf places) := by
      unfold chosenBaseOf
      by_cases hc : 0 < (fourPlusOf places).length
      · simp only [hc, if_true]
        exact (List.filter_sublist _).subperm
      · simp only [hc, if_false]
        exact List.Subperm.refl _
    have h5 : List.Subperm (ratedSortedOf places)
        (places.filter (fun p => p.rating.isSome)) :=
      (List.perm_insertionSort candBefore _).subperm
    have h6 : List.Subperm (places.filter (fun p => p.rating.isSome)) places :=
      (List.filter_sublist _).subperm
    exact (((h2.trans h3).trans h4).trans h5).trans h6
  · exact shuffleInPlace_perm rand l

/-! ## The query parser (`parseStationGenre`, `src/api/chat.js` lines 145–154)

The computation runs on character lists (structural recursion, so concrete
runs evaluate): `split(sep)` becomes `splitOnChar`, `join(" ")` becomes
`intercalateChar ' '`, `filter(Boolean)` becomes a filter on nonemptiness
(the segments were just trimmed, so the only falsy value is the empty
string), and `parts[0] || cleaned` is the head when the filtered list is
nonempty (its members are nonempty) and `cleaned` otherwise. -/

/-- Model of `String.prototype.split` with a one-character separator. -/
def splitOnChar (sep : Char) : List Char → List (List Char)
  | [] => [[]]
  | c :: r =>
    if c = sep then [] :: splitOnChar sep r
    else
      match splitOnChar sep r with
      | [] => [[c]]
      | h :: t => (c :: h) :: t

/-- Model of `Array.prototype.join` with a one-character separator. -/
def intercalateChar (sep : Char) : List (List Char) → List Char
  | [] => []
  | [x] => x
  | x :: xs => x ++ sep :: intercalateChar sep xs

/-- Model of `parseStationGenre (text)`: station term and genre term. -/
def parseStationGenre (text : String) : String × String :=
  let cleaned := jsTrimList (collapseWsAux text.data)
  if cleaned.contains ',' then
    let parts := ((splitOnChar ',' cleaned).map jsTrimList).filter
      (fun s => ¬ s.isEmpty)
    let station := match parts with
      | [] => cleaned
      | st :: _ => st
    let genre := intercalateChar ' ' (parts.drop 1)
    (⟨station⟩, if genre.isEmpty then "restaurants" else ⟨genre⟩)
  else
    match splitOnChar ' ' cleaned with
    | [st] => (⟨st⟩, "restaurants")
    | st :: rest =>
      (⟨st⟩,
        let g := jsTrimList (intercalateChar ' ' rest)
        if g.isEmpty then "restaurants" else ⟨g⟩)
    | [] => ("", "restaurants")

/-- C4 counterexample: on input `", sushi"` the code drops the empty
leading comma segment and returns station `"sushi"` with the default genre,
whereas the claim says the location term is the segment before the first
comma (the empty string) and the category term is `"sushi"`. -/
theorem c4_parser_counterexample :
    parseStationGenre ", sushi" = ("sushi", "restaurants") ∧
      parseStationGenre ", sushi" ≠ ("", "sushi") := by
  constructor
  · decide
  · decide

/-- Amended spec-side formulation of the parser contract: in the comma
branch the location term is the FIRST NONEMPTY trimmed comma segment (the
whole cleaned text when every segment is empty), and the category term is
the remaining nonempty trimmed segments joined by single spaces, defaulting
to "restaurants"; the no-comma branch is first-token / rest-of-tokens as
the claim states. -/
def parseSpecAmended (text : String) : String × String :=
  let cleaned := jsTrimList (collapseWsAux text.data)
  if cleaned.contains ',' then
    match ((splitOnChar ',' cleaned).map jsTrimList).filter
        (fun s => ¬ s.isEmpty) with
    | [] => (⟨cleaned⟩, "restaurants")
    | st :: rest =>
      (⟨st⟩, if rest.isEmpty then "restaurants" else ⟨intercalateChar ' ' rest⟩)
  else
    match splitOnChar ' ' cleaned with
    | [] => ("", "restaurants")
    | [st] => (⟨st⟩, "restaurants")
    | st :: rest =>
      (⟨st⟩,
        let g := jsTrimList (intercalateChar ' ' rest)
        if g.isEmpty then "restaurants" else ⟨g⟩)

theorem intercalateChar_isEmpty_false (r : List Char) (rs : List (List Char))
    (hr : r.isEmpty = false) :
    (intercalateChar ' ' (r :: rs)).isEmpty = false := by
  cases rs with
  | nil => simpa [intercalateChar] using hr
  | cons y t =>
    cases r with
    | nil => simp at hr
    | cons c cr => simp [intercalateChar]

/-- C4 amended: the parser agrees everywhere with the corrected contract
`parseSpecAmended` (first NONEMPTY trimmed comma segment as location, not
the raw segment before the first comma), and the two end-to-end examples of
the claim hold. -/
theorem c4_parser_amended :
    (∀ s : String, parseStationGenre s = parseSpecAmended s) ∧
    parseStationGenre "Shinjuku ramen" = ("Shinjuku", "ramen") ∧
    parseStationGenre "Shibuya, sushi" = ("Shibuya", "sushi") := by
  refine ⟨?_, by decide, by decide⟩
  intro s
  unfold parseStationGenre parseSpecAmended
  by_cases hc : (jsTrimList (collapseWsAux s.data)).contains ','
  · simp only [hc, if_true]
    cases h : ((splitOnChar ',' (jsTrimList (collapseWsAux s.data))).map
        jsTrimList).filter (fun t => ¬ t.isEmpty) with
    | nil => simp [h, intercalateChar]
    | cons st rest =>
      cases rest with
      | nil => simp [h, intercalateChar]
      | cons r rs =>
        have hrmem : r ∈ ((splitOnChar ',' (jsTrimList (collapseWsAux s.data))).map
            jsTrimList).filter (fun t => ¬ t.isEmpty) := by
          rw [h]
          simp
        have hr : r.isEmpty = false := by
          simpa using List.of_mem_filter hrmem
        have hne := intercalateChar_isEmpty_false r rs hr
        simp [h, hne]
  · simp only [hc, if_false]
    cases h : splitOnChar ' ' (jsTrimList (collapseWsAux s.data)) with
    | nil => simp [h]
    | cons st rest =>
      cases rest with
      | nil => simp [h]
      | cons r rs => simp [h]

/-! ## Walk-time estimate (`estimateWalkMinutes`, `haversineMeters`,
`src/api/chat.js` lines 233–250)

JavaScript numbers are modelled by real numbers here; `Math.atan2`,
`Math.sin`, `Math.cos`, `Math.sqrt` and `Math.round` become their exact
real counterparts (`Math.round x = ⌊x + 1/2⌋`, which is Mathlib's `round`).
The `NaN` returned when the destination is absent is modelled by `none`. -/

/-- Model of `Math.atan2`. -/
noncomputable def atan2 (y x : ℝ) : ℝ :=
  if 0 < x then Real.arctan (y / x)
  else if x < 0 then
    (if y < 0 then Real.arctan (y / x) - Real.pi else Real.arctan (y / x) + Real.pi)
  else if 0 < y then Real.pi / 2
  else if y < 0 then -(Real.pi / 2)
  else 0

/-- The `toRad` helper of `haversineMeters`. -/
noncomputable def toRad (d : ℝ) : ℝ :=
  d * Real.pi / 180

/-- Model of `haversineMeters (lat1, lng1, lat2, lng2)` with mean Earth
radius 6 371 000 m. -/
noncomputable def haversineMeters (lat1 lng1 lat2 lng2 : ℝ) : ℝ :=
  let dLat := toRad (lat2 - lat1)
  let dLng := toRad (lng2 - lng1)
  let a := Real.sin (dLat / 2) ^ 2 +
    Real.cos (toRad lat1) * Real.cos (toRad lat2) * Real.sin (dLng / 2) ^ 2
  let c := 2 * atan2 (Real.sqrt a) (Real.sqrt (1 - a))
  6371000 * c

/-- The arithmetic part of `estimateWalkMinutes`:
`Math.min(Math.max(1, Math.round(meters / 80)), 15)`. -/
noncomputable def walkOfMeters (meters : ℝ) : ℤ :=
  min (max 1 (round (meters / 80))) 15

/-- Model of `estimateWalkMinutes (origin, dest)`; `none` stands for the
`NaN` produced when a coordinate is absent. -/
noncomputable def estimateWalkMinutes :
    Option Coordinate → Option Coordinate → Option ℤ
  | some o, some d =>
    some (walkOfMeters
      (haversineMeters (o.lat : ℝ) (o.lng : ℝ) (d.lat : ℝ) (d.lng : ℝ)))
  | _, _ => none

theorem round_mono_real {x y : ℝ} (h : x ≤ y) : round x ≤ round y := by
  rw [round_eq, round_eq]
  exact Int.floor_le_floor (by linarith)

theorem walkOfMeters_zero : walkOfMeters 0 = 1 := by
  unfold walkOfMeters
  norm_num

theorem walkOfMeters_large {m : ℝ} (h : 1200 ≤ m) : walkOfMeters m = 15 := by
  unfold walkOfMeters
  have h15 : round ((15 : ℝ)) = 15 := by
    norm_num [round_eq]
  have h1 : (15 : ℤ) ≤ round (m / 80) := by
    have hle : round ((15 : ℝ)) ≤ round (m / 80) := round_mono_real (by linarith)
    rwa [h15] at hle
  rw [max_eq_right (le_trans (by norm_num) h1), min_eq_right h1]

theorem walkOfMeters_mono {m₁ m₂ : ℝ} (h : m₁ ≤ m₂) :
    walkOfMeters m₁ ≤ walkOfMeters m₂ := by
  unfold walkOfMeters
  have hr : round (m₁ / 80) ≤ round (m₂ / 80) :=
    round_mono_real (by linarith)
  exact min_le_min (max_le_max le_rfl hr) le_rfl

/-- Claim C5: the estimated walk time is the haversine distance divided by
80 m/min, rounded to nearest, clamped into [1, 15]; distance 0 gives
1 minute, any distance of at least 1200 m gives 15 minutes, and the result
is monotone non-decreasing in the distance. -/
theorem c5_walk_time :
    (∀ o d : Coordinate, estimateWalkMinutes (some o) (some d) =
      some (walkOfMeters
        (haversineMeters (o.lat : ℝ) (o.lng : ℝ) (d.lat : ℝ) (d.lng : ℝ)))) ∧
    (∀ m : ℝ, m = 0 → walkOfMeters m = 1) ∧
    (∀ m : ℝ, 1200 ≤ m → walkOfMeters m = 15) ∧
    (∀ m₁ m₂ : ℝ, m₁ ≤ m₂ → walkOfMeters m₁ ≤ walkOfMeters m₂) := by
  refine ⟨fun o d => rfl, ?_, fun m h => walkOfMeters_large h,
    fun m₁ m₂ h => walkOfMeters_mono h⟩
  intro m hm
  rw [hm]
  exact walkOfMeters_zero

/-- Witness for C5 at concrete distances 0 and 1200. -/
theorem c5_walk_time_witness :
    walkOfMeters 0 = 1 ∧ walkOfMeters 1200 = 15 ∧
      walkOfMeters 0 ≤ walkOfMeters 1200 :=
  ⟨c5_walk_time.2.1 0 rfl, c5_walk_time.2.2.1 1200 (by norm_num),
    c5_walk_time.2.2.2 0 1200 (by norm_num)⟩

/-! ### Concrete haversine values (used by the formatting counterexample) -/

theorem haversine_same_point : haversineMeters 0 0 0 0 = 0 := by
  unfold haversineMeters toRad atan2
  norm_num [Real.arctan_zero]

theorem haversine_antipodal : haversineMeters 0 180 0 0 = 6371000 * Real.pi := by
  unfold haversineMeters toRad atan2
  have e1 : (0 - 180 : ℝ) * Real.pi / 180 / 2 = -(Real.pi / 2) := by ring
  have hsin : Real.sin ((0 - 180 : ℝ) * Real.pi / 180 / 2) = -1 := by
    rw [e1, Real.sin_neg, Real.sin_pi_div_two]
  simp only [hsin]
  norm_num [Real.sqrt_one, Real.sqrt_zero]
  ring

theorem estimateWalk_same :
    estimateWalkMinutes (some ⟨0, 0⟩) (some ⟨0, 0⟩) = some 1 := by
  show some (walkOfMeters (haversineMeters ((0 : ℚ) : ℝ) ((0 : ℚ) : ℝ)
    ((0 : ℚ) : ℝ) ((0 : ℚ) : ℝ))) = some 1
  norm_num [haversine_same_point, walkOfMeters_zero]

theorem estimateWalk_far :
    estimateWalkMinutes (some ⟨0, 180⟩) (some ⟨0, 0⟩) = some 15 := by
  show some (walkOfMeters (haversineMeters ((0 : ℚ) : ℝ) ((180 : ℚ) : ℝ)
    ((0 : ℚ) : ℝ) ((0 : ℚ) : ℝ))) = some 15
  have hc : ((180 : ℚ) : ℝ) = 180 := by norm_num
  have hc0 : ((0 : ℚ) : ℝ) = 0 := by norm_num
  rw [hc, hc0, haversine_antipodal]
  have hπ : (1200 : ℝ) ≤ 6371000 * Real.pi := by
    nlinarith [Real.pi_gt_three]
  rw [walkOfMeters_large hπ]

/-! ## Collaborator outcomes and response model -/

/-- Outcome of one `fetch` + body parse: the call threw (rejection or
JSON-parse exception, with the error message), returned a non-success
status (`!resp.ok`), or returned a parsed payload. -/
inductive FetchOutcome (α : Type) where
  | thrown (msg : String)
  | notOk
  | ok (payload : α)
deriving DecidableEq

/-- One entry of `json.result.reviews` in the Place Details payload. -/
structure Review where
  text : Option String
deriving DecidableEq

/-- The `json.result` object of the Place Details payload. -/
structure PlaceDetails where
  reviews : Option (List Review)
deriving DecidableEq

/-- The parsed Place Details response body (`status`, `result`). -/
structure DetailsJson where
  status : Option String
  result : Option PlaceDetails
deriving DecidableEq

/-- JavaScript truthiness of an optional string (absent and `""` are
falsy). -/
def strTruthy : Option String → Bool
  | none => false
  | some s => s ≠ ""

/-- Body of an HTTP response: `{ reply }` (possibly with `reply` absent)
or `{ error, detail? }`. -/
inductive RBody where
  | replyB (reply : Option String)
  | errorB (err : String) (detail : Option String)
deriving DecidableEq

/-- An HTTP response as produced by the handlers: status code, JSON body,
and the optional `Allow` header value. -/
structure HttpResp where
  status : ℕ
  body : RBody
  allowHeader : Option String
deriving DecidableEq

/-! ## Collaborator-processing helpers of `src/api/chat.js` -/

/-- Model of `geocodeToLocation`: a thrown fetch propagates (`Except.error`),
`!resp.ok` gives `null`, otherwise the first result's coordinate (or `null`
when missing/malformed — already folded into the payload). -/
def geocodeToLocation (out : FetchOutcome (Option Coordinate)) :
    Except String (Option Coordinate) :=
  match out with
  | .thrown m => .error m
  | .notOk => .ok none
  | .ok loc => .ok loc

/-- Model of `nearbySearchRestaurants`: a thrown fetch propagates,
`!resp.ok` gives `[]`, otherwise the mapped results array. -/
def nearbySearchRestaurants (out : FetchOutcome (List Candidate)) :
    Except String (List Candidate) :=
  match out with
  | .thrown m => .error m
  | .notOk => .ok []
  | .ok ps => .ok ps

/-- Model of `placeDetailsForReviews`: falsy id gives `null` without a
call; a thrown fetch propagates; `!resp.ok` or a truthy non-"OK" status
gives `null`; otherwise `json.result || null`. -/
def placeDetailsForReviews (placeId : Option String)
    (out : FetchOutcome DetailsJson) : Except String (Option PlaceDetails) :=
  if ¬ strTruthy placeId then .ok none
  else
    match out with
    | .thrown m => .error m
    | .notOk => .ok none
    | .ok j =>
      match j.status with
      | some s => if s ≠ "" ∧ s ≠ "OK" then .ok none else .ok j.result
      | none => .ok j.result

/-- Model of `extractReviewTexts`: trimmed nonempty review texts, at most
eight. -/
def extractReviewTexts (details : Option PlaceDetails) : List String :=
  match details with
  | none => []
  | some d =>
    match d.reviews with
    | none => []
    | some rs =>
      (((rs.map (fun r =>
        match r.text with
        | some t => jsTrim t
        | none => "")).filter (fun t => t ≠ ""))).take 8

/-- Model of `summarizeReviewsWithOpenAI`: empty review list means no call
and `""`; every failure mode (exception, non-success status, non-string
content) gives `""`; a string content is trimmed.  The prompt sent to the
provider does not influence this value and is not modelled. -/
def summarizeReviewsWithOpenAI (out : FetchOutcome (Option String))
    (reviewTexts : List String) : String :=
  if reviewTexts.isEmpty then ""
  else
    match out with
    | .thrown _ => ""
    | .notOk => ""
    | .ok none => ""
    | .ok (some content) => jsTrim content

/-! ## URL building (`makePlacePageUrl` and `encodeURIComponent`) -/

/-- Hex digit characters used by percent-encoding. -/
def hexDigit (n : ℕ) : Char :=
  (['0', '1', '2', '3', '4', '5', '6', '7', '8', '9',
    'A', 'B', 'C', 'D', 'E', 'F']).getD n '0'

/-- Bytes NOT percent-encoded by `encodeURIComponent`
(`A–Z a–z 0–9 - _ . ! ~ * ' ( )`). -/
def uriUnreserved (b : ℕ) : Bool :=
  (65 ≤ b && b ≤ 90) || (97 ≤ b && b ≤ 122) || (48 ≤ b && b ≤ 57) ||
  b = 45 || b = 95 || b = 46 || b = 33 ||
  b = 126 || b = 42 || b = 39 || b = 40 || b = 41

/-- UTF-8 encoding of one code point (as byte values). -/
def utf8Bytes (n : ℕ) : List ℕ :=
  if n < 0x80 then [n]
  else if n < 0x800 then [0xC0 + n / 64, 0x80 + n % 64]
  else if n < 0x10000 then
    [0xE0 + n / 4096, 0x80 + (n / 64) % 64, 0x80 + n % 64]
  else
    [0xF0 + n / 262144, 0x80 + (n / 4096) % 64, 0x80 + (n / 64) % 64,
      0x80 + n % 64]

/-- Percent-encode one UTF-8 byte. -/
def encodeByte (b : ℕ) : List Char :=
  if uriUnreserved b then [Char.ofNat b]
  else ['%', hexDigit (b / 16), hexDigit (b % 16)]

/-- Model of `encodeURIComponent`. -/
def encodeURIComponent (s : String) : String :=
  ⟨((s.data.map (fun c => utf8Bytes c.toNat)).flatten.map encodeByte).flatten⟩

/-- Model of `makePlacePageUrl (placeId, name, vicinity, station)`. -/
def makePlacePageUrl (placeId : Option String) (name vicinity station : String) :
    String :=
  if strTruthy placeId then
    "https://www.google.com/maps/place/?q=place_id:" ++
      encodeURIComponent (placeId.getD "")
  else
    "https://www.google.com/maps/place/?q=" ++
      encodeURIComponent (name ++ " " ++ (if vicinity ≠ "" then vicinity else station)
        ++ " Japan")

/-! ## Presentation formatting (`src/api/chat.js` lines 96–133) -/

/-- The fixed fallback sentence substituted for an empty summary. -/
def fallbackInsight : String :=
  "Cute foodie vibes! Reviews are limited, but this spot looks promising for an adventure. 🌸✨"

/-- Model of `item.summary || fallback`. -/
def entryInsight (summary : String) : String :=
  if summary = "" then fallbackInsight else summary

/-- The review-count phrase (`countText` in the source); a count of `0` is
falsy in JavaScript and falls through to "a few reviews". -/
def countTextOf : Option ℚ → String
  | some n =>
    if n ≠ 0 ∧ 10 ≤ n then toString n ++ "+ reviews"
    else if n ≠ 0 then toString n ++ " reviews"
    else "a few reviews"
  | none => "a few reviews"

/-- One formatted block of the reply (the loop body of step 6). -/
noncomputable def mainEntryBlock (station : String) (stationLoc : Coordinate)
    (p : Candidate) (summary : String) : String :=
  let name := match p.name with
    | some n => if n = "" then "Unknown Restaurant" else n
    | none => "Unknown Restaurant"
  let access := match estimateWalkMinutes (some stationLoc) p.geometry with
    | some w => "Approx. " ++ toString w ++ " min walk"
    | none => "Near " ++ station
  let mapUrl := makePlacePageUrl p.place_id name (p.vicinity.getD "") station
  "🌸 " ++ name ++ "\n" ++
  "🚶 Access: Near " ++ station ++ " (" ++ access ++ ")\n" ++
  "📝 Reviews: Based on " ++ countTextOf p.user_ratings_total ++ "\n" ++
  "✨ Sakura’s Detailed Insight:\n" ++ entryInsight summary ++ "\n" ++
  "📍 Let’s go!: " ++ mapUrl ++ "\n\n"

/-- The whole assembled reply text of step 6. -/
noncomputable def mainReply (station genre : String) (stationLoc : Coordinate)
    (entries : List (Candidate × String)) : String :=
  "Konnichiwa! I’m Sakura-chan 🌸✨\n" ++
  "Here are my detailed picks near **" ++ station ++ "** for **" ++ genre ++
  "** (within ~15 min walk)! Oishii~ 💖\n\n" ++
  String.join (entries.map (fun e => mainEntryBlock station stationLoc e.1 e.2)) ++
  "I hope you find your favorite meal! Matane! 🌸✨"

/-- The station-not-found apology reply. -/
def notFoundReply (station : String) : String :=
  "Aww… I couldn’t locate the station \"" ++ station ++ "\" 🥺\n" ++
  "Try like: \"Shinjuku ramen\" / \"Shibuya sushi\" 🌸"

/-- The zero-results apology reply. -/
def noResultsReply (station genre : String) : String :=
  "Hmm… I couldn’t find restaurants near " ++ station ++ " for \"" ++ genre ++
  "\" 🥺\n" ++ "Try another genre like ramen / sushi / yakitori / cafe 🌸✨"

/-! ## The main request handler (`src/api/chat.js` lines 6–141) -/

/-- The incoming request: HTTP method and `body.text` when it is a string. -/
structure MainReq where
  method : String
  bodyText : Option String
deriving DecidableEq

/-- One request's environment: configuration values and the outcome of each
collaborator call.  `details i` and `openai i` are the outcomes for the
`i`-th chosen candidate; `rand` drives the shuffle. -/
structure MainEnv where
  mapsKey : Option String
  openaiKey : Option String
  geo : FetchOutcome (Option Coordinate)
  search : FetchOutcome (List Candidate)
  details : ℕ → FetchOutcome DetailsJson
  openai : ℕ → FetchOutcome (Option String)
  rand : ℕ → ℕ

/-- The top-level `catch` block's response. -/
def renderInternalError (m : String) : HttpResp :=
  ⟨500, .errorB "Internal server error" (some m), none⟩

/-- Step 5 (`Promise.all` over `chosen`): per-candidate detail fetch and
summary; a thrown detail fetch rejects the whole batch. -/
def enrichChosen (env : MainEnv) :
    List Candidate → ℕ → Except String (List (Candidate × String))
  | [], _ => .ok []
  | p :: rest, i =>
    match placeDetailsForReviews p.place_id (env.details i) with
    | .error m => .error m
    | .ok det =>
      let summary := summarizeReviewsWithOpenAI (env.openai i)
        (extractReviewTexts det)
      match enrichChosen env rest (i + 1) with
      | .error m => .error m
      | .ok tl => .ok ((p, summary) :: tl)

/-- The request handler of `src/api/chat.js`. -/
noncomputable def handlerMain (req : MainReq) (env : MainEnv) : HttpResp :=
  if req.method ≠ "POST" then
    ⟨405, .errorB "Method Not Allowed" none, some "POST"⟩
  else if ¬ strTruthy env.mapsKey then
    ⟨500, .errorB
      "GOOGLE_MAPS_API_KEY is not set. Add it in Vercel Environment Variables."
      none, none⟩
  else if ¬ strTruthy env.openaiKey then
    ⟨500, .errorB
      "OPENAI_API_KEY is not set. Add it in Vercel Environment Variables."
      none, none⟩
  else
    let text := match req.bodyText with
      | some t => jsTrim t
      | none => ""
    if text = "" then
      ⟨400, .errorB "Missing \x27text\x27 in request body." none, none⟩
    else
      let sg := parseStationGenre text
      match geocodeToLocation env.geo with
      | .error m => renderInternalError m
      | .ok none => ⟨200, .replyB (some (notFoundReply sg.1)), none⟩
      | .ok (some stationLoc) =>
        match nearbySearchRestaurants env.search with
        | .error m => renderInternalError m
        | .ok places =>
          if places.length = 0 then
            ⟨200, .replyB (some (noResultsReply sg.1 sg.2)), none⟩
          else
            match enrichChosen env (selectChosen env.rand places) 0 with
            | .error m => renderInternalError m
            | .ok entries =>
              ⟨200, .replyB (some (mainReply sg.1 sg.2 stationLoc entries)), none⟩

/-! ## Claim C3: error-propagation policy -/

/-- A well-formed POST request used by the concrete runs. -/
def reqOK : MainReq := ⟨"POST", some "Shinjuku ramen"⟩

/-- Environment in which the geocoding fetch throws (a transport failure)
while everything else is benign. -/
def envGeoThrown : MainEnv :=
  ⟨some "k", some "k", .thrown "network error", .ok [],
    fun _ => .ok ⟨none, none⟩, fun _ => .ok none, fun _ => 0⟩

/-- C3 counterexample: a transport failure (thrown fetch) in the geocoding
collaborator does NOT degrade to a fallback — it propagates to the
top-level catch and the handler answers with a 500 error response, not a
200-class reply. -/
theorem c3_error_policy_counterexample :
    (handlerMain reqOK envGeoThrown).status = 500 ∧
      (handlerMain reqOK envGeoThrown).body =
        .errorB "Internal server error" (some "network error") := by
  constructor
  · rfl
  · rfl

theorem enrichChosen_ok (env : MainEnv)
    (h : ∀ i m, env.details i ≠ .thrown m) :
    ∀ (chosen : List Candidate) (i : ℕ),
      ∃ entries, enrichChosen env chosen i = .ok entries := by
  intro chosen
  induction chosen with
  | nil => exact fun i => ⟨[], rfl⟩
  | cons p rest ih =>
    intro i
    obtain ⟨tl, htl⟩ := ih (i + 1)
    have hdet : ∃ det, placeDetailsForReviews p.place_id (env.details i) = .ok det := by
      unfold placeDetailsForReviews
      by_cases hid : ¬ strTruthy p.place_id
      · rw [if_pos hid]
        exact ⟨none, rfl⟩
      · rw [if_neg hid]
        cases hdi : env.details i with
        | thrown m => exact absurd hdi (h i m)
        | notOk => exact ⟨none, rfl⟩
        | ok j =>
          cases hs : j.status with
          | none => exact ⟨j.result, by simp [hs]⟩
          | some s =>
            by_cases hc : s ≠ "" ∧ s ≠ "OK"
            · exact ⟨none, by simp [hs, hc]⟩
            · exact ⟨j.result, by simp [hs, hc]⟩
    obtain ⟨det, hdet⟩ := hdet
    refine ⟨(p, summarizeReviewsWithOpenAI (env.openai i)
      (extractReviewTexts det)) :: tl, ?_⟩
    simp only [enrichChosen, hdet, htl]

/-- C3 amended: with valid configuration and input, if the geocoding fetch,
the places-search fetch and every detail fetch complete without throwing
(non-success statuses and malformed payloads allowed, and the
text-generation collaborator completely arbitrary), the handler answers
200 with a reply string; but thrown collaborator fetches (transport
failures) propagate to the top-level catch and produce a 500 error
response, as the counterexample shows. -/
theorem c3_error_policy_amended (req : MainReq) (env : MainEnv)
    (h1 : req.method = "POST")
    (h2 : strTruthy env.mapsKey = true)
    (h3 : strTruthy env.openaiKey = true)
    (h4 : (match req.bodyText with | some t => jsTrim t | none => "") ≠ "")
    (h5 : ∀ m, env.geo ≠ .thrown m)
    (h6 : ∀ m, env.search ≠ .thrown m)
    (h7 : ∀ i m, env.details i ≠ .thrown m) :
    (handlerMain req env).status = 200 ∧
      ∃ s, (handlerMain req env).body = .replyB (some s) := by
  unfold handlerMain
  rw [if_neg (by simp [h1]), if_neg (by simp [h2]), if_neg (by simp [h3])]
  dsimp only
  rw [if_neg h4]
  cases hgeo : env.geo with
  | thrown m => exact absurd hgeo (h5 m)
  | notOk =>
    simp only [geocodeToLocation]
    exact ⟨by trivial, _, rfl⟩
  | ok loc =>
    cases loc with
    | none =>
      simp only [geocodeToLocation]
      exact ⟨by trivial, _, rfl⟩
    | some stationLoc =>
      simp only [geocodeToLocation]
      cases hsearch : env.search with
      | thrown m => exact absurd hsearch (h6 m)
      | notOk =>
        simp only [nearbySearchRestaurants, List.length_nil, if_pos rfl]
        exact ⟨by trivial, _, rfl⟩
      | ok ps =>
        simp only [nearbySearchRestaurants]
        by_cases hps : ps.length = 0
        · rw [if_pos hps]
          exact ⟨by trivial, _, rfl⟩
        · rw [if_neg hps]
          obtain ⟨entries, he⟩ :=
            enrichChosen_ok env h7 (selectChosen env.rand ps) 0
          rw [he]
          exact ⟨by trivial, _, rfl⟩

/-- A benign environment: geocoding finds nothing (an expected empty
result), every other collaborator is well-behaved. -/
def envNotFound : MainEnv :=
  ⟨some "k", some "k", .ok none, .ok [],
    fun _ => .ok ⟨none, none⟩, fun _ => .ok none, fun _ => 0⟩

/-- Witness for the amended C3 theorem at a concrete run. -/
theorem c3_error_policy_amended_witness :
    (handlerMain reqOK envNotFound).status = 200 ∧
      ∃ s, (handlerMain reqOK envNotFound).body = .replyB (some s) :=
  c3_error_policy_amended reqOK envNotFound rfl rfl rfl (by decide)
    (fun m h => by cases h) (fun m h => by cases h) (fun i m h => by cases h)

/-! ## Claim C6: insight fallback -/

/-- The failure modes of one text-generation call: exception, non-success
status, or malformed response (content not a string). -/
def openaiFailedB : FetchOutcome (Option String) → Bool
  | .thrown _ => true
  | .notOk => true
  | .ok none => true
  | .ok (some _) => false

theorem summarize_failed (out : FetchOutcome (Option String))
    (texts : List String) (h : openaiFailedB out = true) :
    summarizeReviewsWithOpenAI out texts = "" := by
  unfold summarizeReviewsWithOpenAI
  by_cases ht : texts.isEmpty
  · rw [if_pos ht]
  · rw [if_neg ht]
    cases out with
    | thrown m => rfl
    | notOk => rfl
    | ok c =>
      cases c with
      | none => rfl
      | some s => simp [openaiFailedB] at h

/-- C6 amended: in the `src/api/chat.js` handler the claim holds — when the
text-generation collaborator fails on every call, every enriched entry's
insight text is the fixed fallback sentence, which is nonempty.  (The
`part_003` variant cited by the claim has no such fallback; see the
counterexample.) -/
theorem c6_insight_fallback_amended (env : MainEnv)
    (h : ∀ i, openaiFailedB (env.openai i) = true) :
    ∀ (chosen : List Candidate) (i : ℕ) (entries : List (Candidate × String)),
      enrichChosen env chosen i = .ok entries →
      ∀ e ∈ entries, entryInsight e.2 = fallbackInsight ∧ entryInsight e.2 ≠ "" := by
  intro chosen
  induction chosen with
  | nil =>
    intro i entries he e hm
    simp only [enrichChosen] at he
    cases he
    simp at hm
  | cons p rest ih =>
    intro i entries he e hm
    simp only [enrichChosen] at he
    cases hdet : placeDetailsForReviews p.place_id (env.details i) with
    | error m =>
      rw [hdet] at he
      exact absurd he (by simp)
    | ok det =>
      rw [hdet] at he
      cases hrec : enrichChosen env rest (i + 1) with
      | error m =>
        rw [hrec] at he
        exact absurd he (by simp)
      | ok tl =>
        rw [hrec] at he
        simp only [Except.ok.injEq] at he
        subst he
        rcases List.mem_cons.mp hm with rfl | hm'
        · rw [summarize_failed _ _ (h i)]
          refine ⟨rfl, ?_⟩
          rw [show entryInsight "" = fallbackInsight from rfl]
          decide
        · exact ih (i + 1) tl hrec e hm'

/-- Environment in which every text-generation call fails with a
non-success status. -/
def envC6 : MainEnv :=
  ⟨some "k", some "k", .ok none, .ok [],
    fun _ => .ok ⟨none, none⟩, fun _ => .notOk, fun _ => 0⟩

/-- Witness for the amended C6 theorem at a concrete run. -/
theorem c6_insight_fallback_amended_witness :
    entryInsight (candA, "").2 = fallbackInsight ∧
      entryInsight (candA, "").2 ≠ "" :=
  c6_insight_fallback_amended envC6 (fun _ => rfl) [candA] 0 [(candA, "")]
    (by rfl) (candA, "") (by simp)

/-! ## The `src/unnamed/part_003` variant handler

This variant uses the Places "searchText" endpoint, romanizes names and
then asks the text-generation collaborator for the WHOLE reply in one call,
returning `insightJson?.choices?.[0]?.message?.content?.trim()` directly as
the reply with no fallback.  The romanized-names payload is modelled
already parsed (`safeJsonArray` output); prompt construction is not
modelled since it does not influence the response value. -/

/-- One place of the `searchText` payload (`displayName` and
`editorialSummary` stand for their `.text` projections). -/
structure V3Place where
  id : Option String
  displayName : Option String
  formattedAddress : Option String
  editorialSummary : Option String
deriving DecidableEq

/-- The parsed `searchText` response body (`error.message` and `places`). -/
structure V3PlacesJson where
  errorMessage : Option String
  places : Option (List V3Place)
deriving DecidableEq

/-- Outcome of one `fetch` + `json()` in the variant (no `resp.ok` check is
made for the two OpenAI calls, so `ok` carries the status flag only for the
places call). -/
inductive V3Call (α : Type) where
  | thrown (msg : String)
  | resp (ok : Bool) (json : α)
deriving DecidableEq

/-- Environment of one `part_003` request. -/
structure V3Env where
  mapsKey : Option String
  openaiKey : Option String
  placesCall : V3Call V3PlacesJson
  romanizeCall : V3Call (Option (List String))
  insightCall : V3Call (Option String)

/-- The variant's `catch` response: `err.message || "Server error"`. -/
def v3CatchError (m : String) : HttpResp :=
  ⟨500, .errorB (if m = "" then "Server error" else m) none, none⟩

/-- The request handler of `src/unnamed/part_003`. -/
def handlerV3 (req : MainReq) (env : V3Env) : HttpResp :=
  if req.method ≠ "POST" then
    ⟨405, .errorB "Method not allowed" none, none⟩
  else
    let query := jsTrim (req.bodyText.getD "")
    if query = "" then ⟨400, .errorB "Empty input" none, none⟩
    else if ¬ strTruthy env.mapsKey then
      ⟨500, .errorB "Missing GOOGLE_MAPS_API_KEY" none, none⟩
    else if ¬ strTruthy env.openaiKey then
      ⟨500, .errorB "Missing OPENAI_API_KEY" none, none⟩
    else
      match env.placesCall with
      | .thrown m => v3CatchError m
      | .resp ok json =>
        if ¬ ok then
          ⟨500, .errorB
            (match json.errorMessage with
              | some s => if s = "" then "Places API error" else s
              | none => "Places API error") none, none⟩
        else
          let places := ((json.places.getD []).filter
            (fun p => strTruthy p.id && strTruthy p.displayName)).take 5
          if places.length = 0 then
            ⟨200, .replyB (some
              "Konnichiwa! I couldn\x27t find good matches 🥺 Try something like Shinjuku ramen 🌸"),
              none⟩
          else
            match env.romanizeCall with
            | .thrown m => v3CatchError m
            | .resp _ _ =>
              match env.insightCall with
              | .thrown m => v3CatchError m
              | .resp _ content => ⟨200, .replyB (content.map jsTrim), none⟩

/-- A valid places payload with one usable venue. -/
def v3OnePlace : V3PlacesJson :=
  ⟨none, some [⟨some "p1", some "Sushi Ya", none, none⟩]⟩

/-- Environment for the C6 counterexample: the places call succeeds but
both text-generation calls return malformed content (no string). -/
def envV3Fail : V3Env :=
  ⟨some "k", some "k", .resp true v3OnePlace, .resp true none, .resp true none⟩

/-- C6 counterexample: in the `part_003` variant cited by the claim, when
the text-generation collaborator fails (malformed response on every call),
the caller substitutes NO fallback sentence — the response's `reply` field
is absent (`undefined`), so the final reply carries no insight text at
all. -/
theorem c6_insight_fallback_counterexample :
    (handlerV3 reqOK envV3Fail).status = 200 ∧
      (handlerV3 reqOK envV3Fail).body = .replyB none := by
  constructor
  · rfl
  · rfl

/-- Any environment value, used for the non-POST run (no collaborator data
is ever consulted on that path). -/
def envV3Idle : V3Env :=
  ⟨none, none, .thrown "", .thrown "", .thrown ""⟩

/-- C7 counterexample: in the `part_003` variant (same code as the
`part_000` method check), a GET request is answered 405 WITHOUT any
`Allow: POST` header. -/
theorem c7_method_check_counterexample :
    (handlerV3 ⟨"GET", some "Shinjuku ramen"⟩ envV3Idle).status = 405 ∧
      (handlerV3 ⟨"GET", some "Shinjuku ramen"⟩ envV3Idle).allowHeader = none := by
  constructor
  · rfl
  · rfl

/-- C7 amended: every non-POST request is rejected with 405 before the body
or any collaborator is consulted (the response does not depend on the
environment at all); the canonical `src/api/chat.js` handler attaches
`Allow: POST`, while the `part_000`/`part_003` variants send no `Allow`
header. -/
theorem c7_method_check_amended :
    (∀ (req : MainReq) (env : MainEnv), req.method ≠ "POST" →
      handlerMain req env = ⟨405, .errorB "Method Not Allowed" none, some "POST"⟩) ∧
    (∀ (req : MainReq) (env : V3Env), req.method ≠ "POST" →
      handlerV3 req env = ⟨405, .errorB "Method not allowed" none, none⟩) := by
  constructor
  · intro req env h
    unfold handlerMain
    rw [if_pos h]
  · intro req env h
    unfold handlerV3
    rw [if_pos h]

/-- Witness for the amended C7 theorem on a concrete GET request. -/
theorem c7_method_check_amended_witness :
    handlerMain ⟨"GET", some "x"⟩ envNotFound =
      ⟨405, .errorB "Method Not Allowed" none, some "POST"⟩ ∧
    handlerV3 ⟨"GET", some "x"⟩ envV3Idle =
      ⟨405, .errorB "Method not allowed" none, none⟩ :=
  ⟨c7_method_check_amended.1 ⟨"GET", some "x"⟩ envNotFound (by decide),
    c7_method_check_amended.2 ⟨"GET", some "x"⟩ envV3Idle (by decide)⟩

/-! ## Claim C8: determinism of the formatting stage -/

/-- The candidate list the handler will go on to select from, as determined
by the places-search outcome (empty on a non-success status). -/
def searchPlacesOf (env : MainEnv) : List Candidate :=
  match env.search with
  | .thrown _ => []
  | .notOk => []
  | .ok ps => ps

theorem enrichChosen_congr (env₁ env₂ : MainEnv)
    (hd : env₁.details = env₂.details) (ho : env₁.openai = env₂.openai) :
    ∀ (c : List Candidate) (i : ℕ),
      enrichChosen env₁ c i = enrichChosen env₂ c i := by
  intro c
  induction c with
  | nil => intro i; rfl
  | cons p rest ih =>
    intro i
    simp only [enrichChosen, hd, ho, ih (i + 1)]

set_option maxHeartbeats 2000000 in
/-- C8 amended: two runs of the same request that agree on configuration,
the geocoding outcome (hence the resolved station coordinate), the search
outcome, and the per-candidate enrichment outcomes, and whose shuffles
produce the same chosen shortlist, yield byte-identical responses — the
shuffle randomness itself has no other influence.  (The resolved station
coordinate must be included: the claim omits it, and the counterexample
shows the reply changes with it.) -/
theorem c8_format_determinism_amended (req : MainReq) (env₁ env₂ : MainEnv)
    (hk1 : env₁.mapsKey = env₂.mapsKey)
    (hk2 : env₁.openaiKey = env₂.openaiKey)
    (hgeo : env₁.geo = env₂.geo)
    (hsearch : env₁.search = env₂.search)
    (hdet : env₁.details = env₂.details)
    (hai : env₁.openai = env₂.openai)
    (hsel : selectChosen env₁.rand (searchPlacesOf env₁) =
      selectChosen env₂.rand (searchPlacesOf env₂)) :
    handlerMain req env₁ = handlerMain req env₂ := by
  obtain ⟨k1, k2, g, s, d, o, r₁⟩ := env₁
  obtain ⟨k1', k2', g', s', d', o', r₂⟩ := env₂
  simp only at hk1 hk2 hgeo hsearch hdet hai
  subst hk1 hk2 hgeo hsearch hdet hai
  unfold handlerMain
  by_cases hm : req.method ≠ "POST"
  · rw [if_pos hm, if_pos hm]
  · rw [if_neg hm, if_neg hm]
    by_cases hmk : ¬ strTruthy k1
    · rw [if_pos hmk, if_pos hmk]
    · rw [if_neg hmk, if_neg hmk]
      by_cases hok : ¬ strTruthy k2
      · rw [if_pos hok, if_pos hok]
      · rw [if_neg hok, if_neg hok]
        by_cases ht : (match req.bodyText with
          | some t => jsTrim t
          | none => "") = ""
        · rw [if_pos ht, if_pos ht]
        · rw [if_neg ht, if_neg ht]
          cases g with
          | thrown m => rfl
          | notOk => rfl
          | ok loc =>
            cases loc with
            | none => rfl
            | some stationLoc =>
              cases s with
              | thrown m => rfl
              | notOk => rfl
              | ok ps =>
                simp only [geocodeToLocation, nearbySearchRestaurants]
                by_cases hps : ps.length = 0
                · rw [if_pos hps, if_pos hps]
                · rw [if_neg hps, if_neg hps]
                  have hchosen : selectChosen r₁ ps = selectChosen r₂ ps := by
                    simpa [searchPlacesOf] using hsel
                  rw [hchosen,
                    enrichChosen_congr ⟨k1, k2, .ok (some stationLoc), .ok ps, d, o, r₁⟩
                      ⟨k1, k2, .ok (some stationLoc), .ok ps, d, o, r₂⟩ rfl rfl
                      (selectChosen r₂ ps) 0]

/-- Two environments that differ only in the shuffle source; with a single
candidate the chosen shortlist is the same. -/
def envW1 : MainEnv :=
  ⟨some "k", some "k", .ok (some ⟨0, 0⟩), .ok [candA],
    fun _ => .ok ⟨none, none⟩, fun _ => .ok none, fun _ => 0⟩

/-- Same as `envW1` except for the random source. -/
def envW2 : MainEnv :=
  ⟨some "k", some "k", .ok (some ⟨0, 0⟩), .ok [candA],
    fun _ => .ok ⟨none, none⟩, fun _ => .ok none, fun i => i⟩

/-- Witness for the amended C8 theorem: two runs with different shuffle
sources but the same chosen shortlist produce identical responses. -/
theorem c8_format_determinism_amended_witness :
    handlerMain reqOK envW1 = handlerMain reqOK envW2 :=
  c8_format_determinism_amended reqOK envW1 envW2 rfl rfl rfl rfl rfl rfl
    (by rfl)

/-- A candidate with a coordinate, used by the formatting counterexample. -/
def candG : Candidate :=
  ⟨some "A", some "pid1", some 4, none, none, some ⟨0, 0⟩⟩

/-- Run 1: the station geocodes right onto the candidate. -/
def envX1 : MainEnv :=
  ⟨some "k", some "k", .ok (some ⟨0, 0⟩), .ok [candG],
    fun _ => .ok ⟨none, none⟩, fun _ => .ok none, fun _ => 0⟩

/-- Run 2: identical except the station geocodes to the antipode. -/
def envX2 : MainEnv :=
  ⟨some "k", some "k", .ok (some ⟨0, 180⟩), .ok [candG],
    fun _ => .ok ⟨none, none⟩, fun _ => .ok none, fun _ => 0⟩

theorem handlerMain_runX1 :
    handlerMain reqOK envX1 =
      ⟨200, .replyB (some (mainReply "Shinjuku" "ramen" ⟨0, 0⟩ [(candG, "")])),
        none⟩ := by
  rfl

theorem handlerMain_runX2 :
    handlerMain reqOK envX2 =
      ⟨200, .replyB (some (mainReply "Shinjuku" "ramen" ⟨0, 180⟩ [(candG, "")])),
        none⟩ := by
  rfl

set_option maxRecDepth 40000 in
theorem mainReply_X_ne :
    mainReply "Shinjuku" "ramen" ⟨0, 0⟩ [(candG, "")] ≠
      mainReply "Shinjuku" "ramen" ⟨0, 180⟩ [(candG, "")] := by
  simp only [mainReply, mainEntryBlock, candG, List.map_cons, List.map_nil]
  rw [estimateWalk_same, estimateWalk_far]
  decide

/-- C8 counterexample: two runs with the same request (hence the same
station and genre terms), the same search outcome, the same chosen
shortlist, and the same per-candidate enrichment outcomes, but different
geocoded station coordinates, produce DIFFERENT reply texts (walk minutes
1 versus 15): the resolved station coordinate is an input to the formatting
stage that the claim's list omits. -/
theorem c8_format_determinism_counterexample :
    envX1.search = envX2.search ∧ envX1.details = envX2.details ∧
    envX1.openai = envX2.openai ∧
    selectChosen envX1.rand (searchPlacesOf envX1) =
      selectChosen envX2.rand (searchPlacesOf envX2) ∧
    (handlerMain reqOK envX1).body ≠ (handlerMain reqOK envX2).body := by
  refine ⟨rfl, rfl, rfl, rfl, ?_⟩
  rw [handlerMain_runX1, handlerMain_runX2]
  intro h
  simp only [RBody.replyB.injEq, Option.some.injEq] at h
  exact mainReply_X_ne h

/-! ## The URL linkifier (`src/components/linkifyText.tsx`)

`text.split(urlRegex)` with the capturing regex `/(https?:\/\/[^\s]+)/g`
alternates non-matching chunks and matches; each part is rendered as an
anchor (with `href` equal to the part) when it contains a match, and as a
plain span otherwise.  The scanner below reproduces the regex semantics:
at each position a match is `http://` or `https://` followed by a maximal
nonempty run of non-whitespace; otherwise scanning advances one character.
The recursion is driven by a fuel argument (always called with the input
length, which the fuel lemmas show is enough) so that concrete runs
evaluate. -/

/-- The characters of `https://`. -/
def headerHttps : List Char := ['h', 't', 't', 'p', 's', ':', '/', '/']

/-- The characters of `http://`. -/
def headerHttp : List Char := ['h', 't', 't', 'p', ':', '/', '/']

/-- Try to match `https?:\/\/[^\s]+` at the start of `cs`; on success
return the (maximal) match and the remaining input. -/
def matchUrlAt (cs : List Char) : Option (List Char × List Char) :=
  if headerHttps.isPrefixOf cs then
    let rest := cs.drop 8
    let tok := rest.takeWhile (fun c => ¬ jsWs c)
    if tok.isEmpty then none
    else some (headerHttps ++ tok, rest.dropWhile (fun c => ¬ jsWs c))
  else if headerHttp.isPrefixOf cs then
    let rest := cs.drop 7
    let tok := rest.takeWhile (fun c => ¬ jsWs c)
    if tok.isEmpty then none
    else some (headerHttp ++ tok, rest.dropWhile (fun c => ¬ jsWs c))
  else none

/-- The splitter behind `text.split(urlRegex)`: alternating non-matching
chunks (built in `acc`, reversed) and matches. -/
def splitUrlGo : ℕ → List Char → List Char → List (List Char)
  | _, acc, [] => [acc.reverse]
  | 0, acc, cs => [acc.reverse ++ cs]
  | fuel + 1, acc, c :: rest =>
    match matchUrlAt (c :: rest) with
    | some (m, r) => acc.reverse :: m :: splitUrlGo fuel [] r
    | none => splitUrlGo fuel (c :: acc) rest

/-- Model of `part.match(urlRegex)`: does any position start a match? -/
def hasUrl : List Char → Bool
  | [] => false
  | c :: rest => (matchUrlAt (c :: rest)).isSome || hasUrl rest

/-- A rendered React node: an anchor (`href`, displayed text) or a span. -/
inductive RNode where
  | anchor (href : String) (text : String)
  | span (text : String)
deriving DecidableEq

/-- Model of `linkifyText`. -/
def linkifyText (s : String) : List RNode :=
  (splitUrlGo s.data.length [] s.data).map
    (fun part =>
      if hasUrl part then .anchor ⟨part⟩ ⟨part⟩ else .span ⟨part⟩)

/-- The textual content of one rendered node. -/
def nodeText : RNode → String
  | .anchor _ t => t
  | .span t => t

/-! ### Facts about the URL scanner -/

theorem isPrefixOf_decomp {l₁ l₂ : List Char} (h : l₁.isPrefixOf l₂ = true) :
    ∃ t, l₁ ++ t = l₂ := by
  induction l₁ generalizing l₂ with
  | nil => exact ⟨l₂, rfl⟩
  | cons a as ih =>
    cases l₂ with
    | nil => simp [List.isPrefixOf] at h
    | cons b bs =>
      simp only [List.isPrefixOf, Bool.and_eq_true, beq_iff_eq] at h
      obtain ⟨t, ht⟩ := ih h.2
      exact ⟨t, by rw [h.1, List.cons_append, ht]⟩

theorem isPrefixOf_append_self (l₁ t : List Char) :
    l₁.isPrefixOf (l₁ ++ t) = true := by
  induction l₁ with
  | nil => simp [List.isPrefixOf]
  | cons a as ih => simp [List.isPrefixOf, ih]

theorem https_not_prefixOf_http (t : List Char) :
    headerHttps.isPrefixOf (headerHttp ++ t) = false := by
  simp [headerHttps, headerHttp, List.isPrefixOf]

theorem takeWhile_ne_nil_extend {u t : List Char} {pred : Char → Bool}
    (h : (u.takeWhile pred).isEmpty = false) :
    ((u ++ t).takeWhile pred).isEmpty = false := by
  cases u with
  | nil => simp at h
  | cons c u' =>
    by_cases hc : pred c
    · simp [List.takeWhile_cons, hc]
    · simp [List.takeWhile_cons, hc] at h

theorem matchUrlAt_pos_https (t : List Char)
    (htne : (t.takeWhile (fun c => ¬ jsWs c)).isEmpty = false) :
    matchUrlAt (headerHttps ++ t) =
      some (headerHttps ++ t.takeWhile (fun c => ¬ jsWs c),
        t.dropWhile (fun c => ¬ jsWs c)) := by
  unfold matchUrlAt
  rw [if_pos (isPrefixOf_append_self headerHttps t)]
  dsimp only
  have hd : List.drop 8 (headerHttps ++ t) = t := List.drop_left headerHttps t
  rw [hd, htne]
  simp

theorem matchUrlAt_pos_http (t : List Char)
    (htne : (t.takeWhile (fun c => ¬ jsWs c)).isEmpty = false) :
    matchUrlAt (headerHttp ++ t) =
      some (headerHttp ++ t.takeWhile (fun c => ¬ jsWs c),
        t.dropWhile (fun c => ¬ jsWs c)) := by
  unfold matchUrlAt
  rw [if_neg (by simp [https_not_prefixOf_http]),
    if_pos (isPrefixOf_append_self headerHttp t)]
  dsimp only
  have hd : List.drop 7 (headerHttp ++ t) = t := List.drop_left headerHttp t
  rw [hd, htne]
  simp

theorem takeWhile_self_again (t : List Char) :
    (t.takeWhile (fun c => ¬ jsWs c)).takeWhile (fun c => ¬ jsWs c) =
      t.takeWhile (fun c => ¬ jsWs c) := by
  apply List.takeWhile_eq_self_iff.mpr
  intro x hx
  have hpx := List.mem_takeWhile_imp hx
  exact hpx

theorem dropWhile_of_takeWhile_nil (t : List Char) :
    (t.takeWhile (fun c => ¬ jsWs c)).dropWhile (fun c => ¬ jsWs c) = [] := by
  apply List.dropWhile_eq_nil_iff.mpr
  intro x hx
  have hpx := List.mem_takeWhile_imp hx
  exact hpx

theorem matchUrlAt_spec {cs m r : List Char} (h : matchUrlAt cs = some (m, r)) :
    m ++ r = cs ∧ m ≠ [] ∧ r.length < cs.length ∧
      matchUrlAt m = some (m, []) := by
  unfold matchUrlAt at h
  by_cases h8 : headerHttps.isPrefixOf cs
  · rw [if_pos h8] at h
    obtain ⟨t, ht⟩ := isPrefixOf_decomp h8
    have hdrop : cs.drop 8 = t := by
      rw [← ht]
      exact List.drop_left headerHttps t
    rw [hdrop] at h
    by_cases htok : (t.takeWhile (fun c => ¬ jsWs c)).isEmpty
    · rw [if_pos htok] at h
      cases h
    · rw [if_neg htok] at h
      simp only [Option.some.injEq, Prod.mk.injEq] at h
      obtain ⟨hm, hr⟩ := h
      subst hm hr
      have hsplit : t.takeWhile (fun c => ¬ jsWs c) ++
          t.dropWhile (fun c => ¬ jsWs c) = t :=
        List.takeWhile_append_dropWhile _ _
      have htne : t.takeWhile (fun c => ¬ jsWs c) ≠ [] := by
        simpa using htok
      refine ⟨?_, by simp [headerHttps], ?_, ?_⟩
      · rw [List.append_assoc, hsplit, ht]
      · have hlen := congrArg List.length hsplit
        simp only [List.length_append] at hlen
        have hpos : 0 < (t.takeWhile (fun c => ¬ jsWs c)).length :=
          List.length_pos.mpr htne
        have hcs := congrArg List.length ht
        simp only [List.length_append] at hcs
        simp only [headerHttps, List.length_cons] at hcs
        omega
      · rw [matchUrlAt_pos_https (t.takeWhile (fun c => ¬ jsWs c))
          (by rw [takeWhile_self_again]; simpa using htok),
          takeWhile_self_again, dropWhile_of_takeWhile_nil]
  · rw [if_neg h8] at h
    by_cases h7 : headerHttp.isPrefixOf cs
    · rw [if_pos h7] at h
      obtain ⟨t, ht⟩ := isPrefixOf_decomp h7
      have hdrop : cs.drop 7 = t := by
        rw [← ht]
        exact List.drop_left headerHttp t
      rw [hdrop] at h
      by_cases htok : (t.takeWhile (fun c => ¬ jsWs c)).isEmpty
      · rw [if_pos htok] at h
        cases h
      · rw [if_neg htok] at h
        simp only [Option.some.injEq, Prod.mk.injEq] at h
        obtain ⟨hm, hr⟩ := h
        subst hm hr
        have hsplit : t.takeWhile (fun c => ¬ jsWs c) ++
            t.dropWhile (fun c => ¬ jsWs c) = t :=
          List.takeWhile_append_dropWhile _ _
        have htne : t.takeWhile (fun c => ¬ jsWs c) ≠ [] := by
          simpa using htok
        refine ⟨?_, by simp [headerHttp], ?_, ?_⟩
        · rw [List.append_assoc, hsplit, ht]
        · have hlen := congrArg List.length hsplit
          simp only [List.length_append] at hlen
          have hpos : 0 < (t.takeWhile (fun c => ¬ jsWs c)).length :=
            List.length_pos.mpr htne
          have hcs := congrArg List.length ht
          simp only [List.length_append] at hcs
          simp only [headerHttp, List.length_cons] at hcs
          omega
        · rw [matchUrlAt_pos_http (t.takeWhile (fun c => ¬ jsWs c))
            (by rw [takeWhile_self_again]; simpa using htok),
            takeWhile_self_again, dropWhile_of_takeWhile_nil]
    · rw [if_neg h7] at h
      cases h

theorem matchUrlAt_nil : matchUrlAt [] = none := by
  simp [matchUrlAt, List.isPrefixOf, headerHttps, headerHttp]

theorem matchUrlAt_extend {p : List Char} (t : List Char)
    (h : (matchUrlAt p).isSome) : (matchUrlAt (p ++ t)).isSome := by
  unfold matchUrlAt at h
  by_cases h8 : headerHttps.isPrefixOf p
  · rw [if_pos h8] at h
    obtain ⟨u, hu⟩ := isPrefixOf_decomp h8
    have hdrop : p.drop 8 = u := by
      rw [← hu]
      exact List.drop_left headerHttps u
    rw [hdrop] at h
    by_cases htok : (u.takeWhile (fun c => ¬ jsWs c)).isEmpty
    · rw [if_pos htok] at h
      simp at h
    · have hput : p ++ t = headerHttps ++ (u ++ t) := by
        rw [← hu, List.append_assoc]
      rw [hput, matchUrlAt_pos_https (u ++ t)
        (takeWhile_ne_nil_extend (by simpa using htok))]
      simp
  · by_cases h7 : headerHttp.isPrefixOf p
    · rw [if_neg h8, if_pos h7] at h
      obtain ⟨u, hu⟩ := isPrefixOf_decomp h7
      have hdrop : p.drop 7 = u := by
        rw [← hu]
        exact List.drop_left headerHttp u
      rw [hdrop] at h
      by_cases htok : (u.takeWhile (fun c => ¬ jsWs c)).isEmpty
      · rw [if_pos htok] at h
        simp at h
      · have hput : p ++ t = headerHttp ++ (u ++ t) := by
          rw [← hu, List.append_assoc]
        rw [hput, matchUrlAt_pos_http (u ++ t)
          (takeWhile_ne_nil_extend (by simpa using htok))]
        simp
    · rw [if_neg h8, if_neg h7] at h
      simp at h

theorem hasUrl_false_of (l : List Char)
    (h : ∀ n, matchUrlAt (l.drop n) = none) : hasUrl l = false := by
  induction l with
  | nil => rfl
  | cons c r ih =>
    have h0 := h 0
    simp only [List.drop_zero] at h0
    unfold hasUrl
    rw [h0]
    simp only [Option.isSome_none, Bool.false_or]
    exact ih (fun n => by
      have hn := h (n + 1)
      rwa [List.drop_succ_cons] at hn)

theorem drop_reverse_take {α : Type u} (l : List α) (n : ℕ) :
    l.reverse.drop n = (l.take (l.length - n)).reverse := by
  by_cases h : n ≤ l.length
  · rw [List.reverse_take]
    congr 1
    omega
  · push_neg at h
    rw [List.drop_eq_nil_of_le (by simpa using h.le),
      show l.length - n = 0 by omega]
    simp

theorem splitUrlGo_join : ∀ (fuel : ℕ) (acc cs : List Char),
    (splitUrlGo fuel acc cs).foldr (· ++ ·) [] = acc.reverse ++ cs := by
  intro fuel
  induction fuel with
  | zero =>
    intro acc cs
    cases cs <;> simp [splitUrlGo]
  | succ f ih =>
    intro acc cs
    cases cs with
    | nil => simp [splitUrlGo]
    | cons c rest =>
      cases hm : matchUrlAt (c :: rest) with
      | none =>
        simp only [splitUrlGo, hm]
        rw [ih]
        simp
      | some pr =>
        obtain ⟨m, r⟩ := pr
        simp only [splitUrlGo, hm, List.foldr_cons]
        rw [ih]
        simp only [List.reverse_nil, List.nil_append]
        rw [← List.append_assoc, List.append_assoc]
        rw [(matchUrlAt_spec hm).1]

theorem hasUrl_reverse_false (acc cs : List Char)
    (hinv : ∀ n, n < acc.length →
      matchUrlAt ((acc.take (n + 1)).reverse ++ cs) = none) :
    hasUrl acc.reverse = false := by
  apply hasUrl_false_of
  intro n
  rw [drop_reverse_take]
  by_cases hk : acc.length - n = 0
  · rw [hk]
    simpa using matchUrlAt_nil
  · have hk1 : acc.length - n = (acc.length - n - 1) + 1 := by omega
    have hv := hinv (acc.length - n - 1) (by omega)
    rw [← hk1] at hv
    cases hmx : matchUrlAt (acc.take (acc.length - n)).reverse with
    | none => rfl
    | some pr =>
      have hsome : (matchUrlAt ((acc.take (acc.length - n)).reverse ++ cs)).isSome :=
        matchUrlAt_extend cs (by rw [hmx]; rfl)
      rw [hv] at hsome
      cases hsome

theorem splitUrlGo_parts : ∀ (fuel : ℕ) (cs acc : List Char),
    cs.length ≤ fuel →
    (∀ n, n < acc.length →
      matchUrlAt ((acc.take (n + 1)).reverse ++ cs) = none) →
    ∀ part ∈ splitUrlGo fuel acc cs,
      matchUrlAt part = some (part, []) ∨ hasUrl part = false := by
  intro fuel
  induction fuel with
  | zero =>
    intro cs acc hlen hinv part hpart
    have hcs : cs = [] := by
      cases cs with
      | nil => rfl
      | cons c r => simp at hlen
    subst hcs
    simp only [splitUrlGo, List.mem_singleton] at hpart
    subst hpart
    exact Or.inr (hasUrl_reverse_false acc [] hinv)
  | succ f ih =>
    intro cs acc hlen hinv part hpart
    cases cs with
    | nil =>
      simp only [splitUrlGo, List.mem_singleton] at hpart
      subst hpart
      exact Or.inr (hasUrl_reverse_false acc [] hinv)
    | cons c rest =>
      cases hm : matchUrlAt (c :: rest) with
      | some pr =>
        obtain ⟨m, r⟩ := pr
        simp only [splitUrlGo, hm, List.mem_cons] at hpart
        rcases hpart with rfl | rfl | hpart
        · exact Or.inr (hasUrl_reverse_false acc (c :: rest) hinv)
        · exact Or.inl (matchUrlAt_spec hm).2.2.2
        · have hr : r.length ≤ f := by
            have h1 := (matchUrlAt_spec hm).2.2.1
            have h2 := hlen
            simp only [List.length_cons] at h1 h2
            omega
          exact ih r [] hr (by intro n hn; simp at hn) part hpart
      | none =>
        simp only [splitUrlGo, hm] at hpart
        apply ih rest (c :: acc) (by simpa using hlen) ?_ part hpart
        intro n hn
        cases n with
        | zero =>
          simpa using hm
        | succ k =>
          have hv := hinv k (by simpa using hn)
          simpa [List.take_succ_cons, List.reverse_cons, List.append_assoc]
            using hv

theorem mk_append (a b : List Char) : (⟨a⟩ : String) ++ ⟨b⟩ = ⟨a ++ b⟩ := rfl

theorem foldl_append_mk : ∀ (ls : List (List Char)) (a : List Char),
    List.foldl (· ++ ·) (⟨a⟩ : String)
      (ls.map (fun cs => (⟨cs⟩ : String))) = ⟨a ++ ls.foldr (· ++ ·) []⟩ := by
  intro ls
  induction ls with
  | nil => intro a; simp
  | cons x xs ih =>
    intro a
    simp only [List.map_cons, List.foldl_cons, List.foldr_cons]
    rw [mk_append, ih, List.append_assoc]

theorem join_mk (ls : List (List Char)) :
    String.join (ls.map (fun cs => (⟨cs⟩ : String))) =
      ⟨ls.foldr (· ++ ·) []⟩ := by
  have h := foldl_append_mk ls []
  simpa [String.join] using h

/-- Claim C10: the linkifier is content-preserving — concatenating the
textual content of the returned nodes reproduces the input string exactly —
and every anchor node's `href` equals its text, which fully matches the
http/https URL pattern. -/
theorem c10_linkify_content (s : String) :
    String.join ((linkifyText s).map nodeText) = s ∧
    ∀ href text, RNode.anchor href text ∈ linkifyText s →
      href = text ∧ matchUrlAt text.data = some (text.data, []) := by
  constructor
  · have hmap : (linkifyText s).map nodeText =
        (splitUrlGo s.data.length [] s.data).map (fun cs => (⟨cs⟩ : String)) := by
      unfold linkifyText
      rw [List.map_map]
      apply List.map_congr_left
      intro part hp
      by_cases h : hasUrl part <;> simp [nodeText, h]
    rw [hmap, join_mk, splitUrlGo_join]
    rfl
  · intro href text hmem
    unfold linkifyText at hmem
    rw [List.mem_map] at hmem
    obtain ⟨part, hpart, heq⟩ := hmem
    by_cases hu : hasUrl part
    · rw [if_pos hu] at heq
      injection heq with h1 h2
      subst h1 h2
      have hparts := splitUrlGo_parts s.data.length s.data [] le_rfl
        (by intro n hn; simp at hn) part hpart
      rcases hparts with hfull | hfalse
      · exact ⟨rfl, hfull⟩
      · rw [hfalse] at hu
        cases hu
    · rw [if_neg hu] at heq
      cases heq

/-- Witness for C10 on a concrete input containing one URL. -/
theorem c10_linkify_content_witness :
    String.join ((linkifyText "go https://a.b now").map nodeText) =
      "go https://a.b now" ∧
    ("https://a.b" = "https://a.b" ∧
      matchUrlAt ("https://a.b" : String).data =
        some (("https://a.b" : String).data, [])) :=
  ⟨(c10_linkify_content "go https://a.b now").1,
    (c10_linkify_content "go https://a.b now").2 "https://a.b" "https://a.b"
      (by decide)⟩
